import Mathlib

/-!
Verification of the excerpted PsychoPy sources against their specification.

Three independent components are embedded:
* `Idle` — the background idle-task runner (src/psychopy/app/idle.py),
* `XHook` — the key-state tracking of the X11 hook
  (src/psychopy/iohub/devices/pyXHook.py),
* `FormModel` — the Form questionnaire widget (src/psychopy/visual/form.py).

Machine-external facilities (thread liveness, the window system, the file
system, pandas readers, rendering sizes) are passed in as explicit oracle
parameters; floating-point quantities are modelled exactly over the
rationals, which preserves every comparison and division-by-zero condition
appearing in the source.
-/

namespace Idle

/-- Task status constants from psychopy.constants as used in idle.py. -/
inductive Status where
  | notStarted
  | started
  | skip
  | finished
deriving DecidableEq, Repr

/-- One entry of the tasks mapping.  The source dict also stores a func
reference and the timestamps tstart and tEnd; the func is only ever read
when a thread is created, and the timestamps never influence control flow,
so the embedding keeps the two fields that the poll loop branches on:
the status and the worker thread.  A thread is identified by a numeric id
handed out at creation; its liveness is an oracle queried at poll time. -/
structure TaskState where
  status : Status
  thread : Option Nat
deriving DecidableEq, Repr

/-- The two preference flags read at module initialisation
(prefs.connections of idle.py lines 42 and 54). -/
structure ConnectionPrefs where
  allowUsageStats : Bool
  checkForUpdates : Bool
deriving DecidableEq, Repr

/-- Mutable module state of idle.py: the tasks OrderedDict and the global
currentTask reference.  The six OrderedDict keys are mapped to indices in
insertion order: 0 sendUsageStats, 1 checkForUpdates, 2 checkNews,
3 showTips, 4 checkFFMPG, 5 updateVersionChooser.  currentTask holds the
index of the referenced task dict (the mapping is fixed, so dict identity
and key coincide).  nextThreadId is the supply of fresh thread ids. -/
structure IdleState where
  tasks : Nat → TaskState
  currentTask : Option Nat
  nextThreadId : Nat

/-- Number of entries of the tasks OrderedDict. -/
def numTasks : Nat := 6

/-- Initial statuses of the tasks mapping, idle.py lines 41-86.
Note that on line 54 the source tests prefs.connections for
checkForUpdates but assigns SKIP in both branches of the if/else. -/
def initTasks (p : ConnectionPrefs) (n : Nat) : TaskState :=
  if n = 0 then ⟨if p.allowUsageStats then Status.notStarted else Status.skip, none⟩
  else if n = 1 then ⟨if p.checkForUpdates then Status.skip else Status.skip, none⟩
  else if n = 2 then ⟨Status.notStarted, none⟩
  else if n = 3 then ⟨Status.notStarted, none⟩
  else if n = 4 then ⟨Status.notStarted, none⟩
  else if n = 5 then ⟨Status.notStarted, none⟩
  else ⟨Status.skip, none⟩

/-- Module state right after import: tasks initialised, currentTask None. -/
def initState (p : ConnectionPrefs) : IdleState :=
  { tasks := initTasks p, currentTask := none, nextThreadId := 0 }

/-- Iteration order of the tasks OrderedDict. -/
def taskOrder : List Nat := [0, 1, 2, 3, 4, 5]

/-- Effect of the NOT_STARTED branch (idle.py lines 100-107) together with
_doTask (lines 124-137): the task becomes the current task, its status is
set to STARTED and a fresh worker thread is created and started for it. -/
def startTask (s : IdleState) (i : Nat) : IdleState :=
  { tasks := fun m =>
      if m = i then { status := Status.started, thread := some s.nextThreadId }
      else s.tasks m,
    currentTask := some i,
    nextThreadId := s.nextThreadId + 1 }

/-- Effect of the dead-thread part of the STARTED branch (lines 109-117):
the CURRENT task (the source mutates currentTask, not thisTask) is marked
FINISHED, its thread slot is cleared and currentTask is reset to None. -/
def finishTask (s : IdleState) (ct : Nat) : IdleState :=
  { tasks := fun m =>
      if m = ct then { status := Status.finished, thread := none }
      else s.tasks m,
    currentTask := none,
    nextThreadId := s.nextThreadId }

/-- The for-loop of doIdleTasks (idle.py lines 97-121) over the remaining
task names.  A result of none models an uncaught Python exception: in the
STARTED branch the source subscripts the global currentTask, which fails
if currentTask is None or has no thread entry. -/
def pollLoop (alive : Nat → Bool) : List Nat → IdleState → Option (IdleState × Nat)
  | [], s => some (s, 1)
  | i :: rest, s =>
    match (s.tasks i).status with
    | Status.notStarted => some (startTask s i, 0)
    | Status.started =>
      match s.currentTask with
      | none => none
      | some ct =>
        match (s.tasks ct).thread with
        | none => none
        | some tid =>
          if alive tid then some (s, 0)
          else pollLoop alive rest (finishTask s ct)
    | Status.skip => pollLoop alive rest s
    | Status.finished => pollLoop alive rest s

/-- doIdleTasks (idle.py lines 91-121).  The guard on lines 94-95 returns
immediately when the current task still has a live thread; otherwise the
task list is scanned in order.  The oracle alive reports thread liveness
at the time of this poll. -/
def doIdleTasks (alive : Nat → Bool) (s : IdleState) : Option (IdleState × Nat) :=
  match s.currentTask with
  | some ct =>
    match (s.tasks ct).thread with
    | none => none
    | some tid =>
      if alive tid then some (s, 0)
      else pollLoop alive taskOrder s
  | none => pollLoop alive taskOrder s

/-- States reachable from the initial task table by sequences of
doIdleTasks polls, each under an arbitrary thread-liveness oracle. -/
inductive Reachable (p : ConnectionPrefs) : IdleState → Prop
  | init : Reachable p (initState p)
  | step {s s' : IdleState} {alive : Nat → Bool} {r : Nat} :
      Reachable p s → doIdleTasks alive s = some (s', r) → Reachable p s'

/-- A task that the poll loop passes over without entering a branch:
status SKIP or FINISHED. -/
def inactive (s : IdleState) (n : Nat) : Prop :=
  (s.tasks n).status = Status.skip ∨ (s.tasks n).status = Status.finished

/-- Invariant of the idle runner: the STARTED task (if any) is exactly the
task referenced by currentTask, the current task owns a thread, and every
task preceding a STARTED task in scan order has been passed for good. -/
structure Inv (s : IdleState) : Prop where
  started_cur : ∀ n, (s.tasks n).status = Status.started → s.currentTask = some n
  cur_started : ∀ n, s.currentTask = some n → (s.tasks n).status = Status.started
  cur_thread : ∀ n, s.currentTask = some n → ∃ tid, (s.tasks n).thread = some tid
  ord : ∀ n m, (s.tasks n).status = Status.started → m < n → inactive s m

/-- Per-task effect of one poll: unchanged, freshly started, or finished
because its worker thread was observed dead. -/
def TaskStep (alive : Nat → Bool) (t t' : TaskState) : Prop :=
  t' = t
  ∨ (t.status = Status.notStarted ∧ t'.status = Status.started)
  ∨ (t.status = Status.started ∧ t'.status = Status.finished ∧
      ∃ tid, t.thread = some tid ∧ alive tid = false ∧ t'.thread = none)

/-- The poll moved task n from NOT_STARTED to STARTED. -/
def startsTask (s s' : IdleState) (n : Nat) : Prop :=
  (s.tasks n).status = Status.notStarted ∧ (s'.tasks n).status = Status.started

theorem Inv.unique {s : IdleState} (h : Inv s) {n m : Nat}
    (hn : (s.tasks n).status = Status.started)
    (hm : (s.tasks m).status = Status.started) : n = m := by
  have h1 := h.started_cur n hn
  have h2 := h.started_cur m hm
  rw [h1] at h2
  exact Option.some.inj h2

theorem pollLoop_nil (alive : Nat → Bool) (s : IdleState) :
    pollLoop alive [] s = some (s, 1) := rfl

theorem pollLoop_cons_notStarted {s : IdleState} {i : Nat} (alive : Nat → Bool)
    (rest : List Nat) (h : (s.tasks i).status = Status.notStarted) :
    pollLoop alive (i :: rest) s = some (startTask s i, 0) := by
  simp [pollLoop, h]

theorem pollLoop_cons_skip {s : IdleState} {i : Nat} (alive : Nat → Bool)
    (rest : List Nat) (h : (s.tasks i).status = Status.skip) :
    pollLoop alive (i :: rest) s = pollLoop alive rest s := by
  simp [pollLoop, h]

theorem pollLoop_cons_finished {s : IdleState} {i : Nat} (alive : Nat → Bool)
    (rest : List Nat) (h : (s.tasks i).status = Status.finished) :
    pollLoop alive (i :: rest) s = pollLoop alive rest s := by
  simp [pollLoop, h]

theorem pollLoop_cons_started_alive {s : IdleState} {i ct tid : Nat}
    {alive : Nat → Bool} (rest : List Nat)
    (h : (s.tasks i).status = Status.started)
    (hc : s.currentTask = some ct)
    (ht : (s.tasks ct).thread = some tid)
    (ha : alive tid = true) :
    pollLoop alive (i :: rest) s = some (s, 0) := by
  simp [pollLoop, h, hc, ht, ha]

theorem pollLoop_cons_started_dead {s : IdleState} {i ct tid : Nat}
    {alive : Nat → Bool} (rest : List Nat)
    (h : (s.tasks i).status = Status.started)
    (hc : s.currentTask = some ct)
    (ht : (s.tasks ct).thread = some tid)
    (ha : alive tid = false) :
    pollLoop alive (i :: rest) s = pollLoop alive rest (finishTask s ct) := by
  simp [pollLoop, h, hc, ht, ha]

theorem status_ne_of_inactive {s : IdleState} {m : Nat} (h : inactive s m) :
    (s.tasks m).status ≠ Status.notStarted ∧ (s.tasks m).status ≠ Status.started := by
  rcases h with h | h <;> rw [h] <;> exact ⟨by simp, by simp⟩

/-- If the loop has passed every task before index i for good and the
invariant holds, then a task at or beyond i that is NOT_STARTED excludes
any STARTED task anywhere. -/
theorem no_started_of_notStarted_head {s : IdleState} {i : Nat} (hInv : Inv s)
    (hpre : ∀ m, m < i → inactive s m)
    (hst : (s.tasks i).status = Status.notStarted) :
    ∀ k, (s.tasks k).status ≠ Status.started := by
  intro k hk
  rcases Nat.lt_trichotomy k i with h | h | h
  · exact (status_ne_of_inactive (hpre k h)).2 hk
  · rw [h] at hk; rw [hk] at hst; cases hst
  · have := hInv.ord k i hk h
    exact (status_ne_of_inactive this).1 hst

theorem startsTask_irrefl {s : IdleState} {k : Nat} (h : startsTask s s k) : False := by
  obtain ⟨h1, h2⟩ := h
  rw [h1] at h2
  exact Status.noConfusion h2

/-- Core lemma: scanning the tail of the task list starting at index i
from an invariant state where all earlier tasks are inactive succeeds,
preserves the invariant, moves every task along an allowed transition and
starts at most one task. -/
theorem pollLoop_spec (alive : Nat → Bool) :
    ∀ (n i : Nat) (s : IdleState), Inv s → (∀ m, m < i → inactive s m) →
      ∃ s' r, pollLoop alive (List.range' i n) s = some (s', r) ∧ Inv s' ∧
        (∀ k, TaskStep alive (s.tasks k) (s'.tasks k)) ∧
        (∀ k j, startsTask s s' k → startsTask s s' j → k = j) := by
  intro n
  induction n with
  | zero =>
    intro i s hInv hpre
    exact ⟨s, 1, rfl, hInv, fun k => Or.inl rfl,
      fun k j hk _ => absurd hk startsTask_irrefl⟩
  | succ n ih =>
    intro i s hInv hpre
    have hcons : List.range' i (n + 1) = i :: List.range' (i + 1) n := rfl
    rw [hcons]
    cases hst : (s.tasks i).status with
    | notStarted =>
      -- the head task gets started; no other task can be STARTED here
      have hnost := no_started_of_notStarted_head hInv hpre hst
      rw [pollLoop_cons_notStarted alive _ hst]
      have htasks : ∀ m, m ≠ i → (startTask s i).tasks m = s.tasks m := by
        intro m hm
        simp [startTask, hm]
      have htaski : (startTask s i).tasks i =
          { status := Status.started, thread := some s.nextThreadId } := by
        simp [startTask]
      refine ⟨startTask s i, 0, rfl, ?_, ?_, ?_⟩
      · refine ⟨?_, ?_, ?_, ?_⟩
        · intro k hk
          by_cases hki : k = i
          · rw [hki]; rfl
          · rw [htasks k hki] at hk
            exact absurd hk (hnost k)
        · intro k hk
          have hik : i = k := Option.some.inj hk
          rw [← hik, htaski]
        · intro k hk
          have hik : i = k := Option.some.inj hk
          rw [← hik, htaski]
          exact ⟨s.nextThreadId, rfl⟩
        · intro k m hk hmk
          by_cases hki : k = i
          · rw [hki] at hmk
            have hmi : m ≠ i := Nat.ne_of_lt hmk
            rw [inactive, htasks m hmi]
            exact hpre m hmk
          · rw [htasks k hki] at hk
            exact absurd hk (hnost k)
      · intro k
        by_cases hki : k = i
        · rw [hki, htaski]
          exact Or.inr (Or.inl ⟨hst, rfl⟩)
        · rw [htasks k hki]
          exact Or.inl rfl
      · intro k j hk hj
        have hki : k = i := by
          by_contra hne
          obtain ⟨hk1, hk2⟩ := hk
          rw [htasks k hne] at hk2
          rw [hk1] at hk2
          exact Status.noConfusion hk2
        have hji : j = i := by
          by_contra hne
          obtain ⟨hj1, hj2⟩ := hj
          rw [htasks j hne] at hj2
          rw [hj1] at hj2
          exact Status.noConfusion hj2
        rw [hki, hji]
    | started =>
      have hcur := hInv.started_cur i hst
      obtain ⟨tid, htid⟩ := hInv.cur_thread i hcur
      cases ha : alive tid with
      | true =>
        rw [pollLoop_cons_started_alive _ hst hcur htid ha]
        exact ⟨s, 0, rfl, hInv, fun k => Or.inl rfl,
          fun k j hk _ => absurd hk startsTask_irrefl⟩
      | false =>
        rw [pollLoop_cons_started_dead _ hst hcur htid ha]
        have htasks : ∀ m, m ≠ i → (finishTask s i).tasks m = s.tasks m := by
          intro m hm
          simp [finishTask, hm]
        have htaski : (finishTask s i).tasks i =
            { status := Status.finished, thread := none } := by
          simp [finishTask]
        have hInv' : Inv (finishTask s i) := by
          have hnost : ∀ k, ((finishTask s i).tasks k).status ≠ Status.started := by
            intro k hk
            by_cases hki : k = i
            · rw [hki, htaski] at hk
              exact Status.noConfusion hk
            · rw [htasks k hki] at hk
              exact hki (hInv.unique hk hst)
          refine ⟨fun k hk => absurd hk (hnost k), ?_, ?_, ?_⟩
          · intro k hk
            exact Option.noConfusion hk
          · intro k hk
            exact Option.noConfusion hk
          · intro k m hk _
            exact absurd hk (hnost k)
        have hpre' : ∀ m, m < i + 1 → inactive (finishTask s i) m := by
          intro m hm
          by_cases hmi : m = i
          · rw [inactive, hmi, htaski]
            exact Or.inr rfl
          · have hm' : m < i := by omega
            rw [inactive, htasks m hmi]
            exact hpre m hm'
        obtain ⟨s', r, heq, hInv2, hstep, huniq⟩ := ih (i + 1) (finishTask s i) hInv' hpre'
        refine ⟨s', r, heq, hInv2, ?_, ?_⟩
        · intro k
          by_cases hki : k = i
          · rw [hki]
            have hsk := hstep i
            rw [htaski] at hsk
            rcases hsk with h | h | h
            · rw [h]
              exact Or.inr (Or.inr ⟨hst, rfl, tid, htid, ha, rfl⟩)
            · exact absurd h.1 (by intro hcontra; exact Status.noConfusion hcontra)
            · exact absurd h.1 (by intro hcontra; exact Status.noConfusion hcontra)
          · have hsk := hstep k
            rw [htasks k hki] at hsk
            exact hsk
        · intro k j hk hj
          have hnotI : ∀ m, startsTask s s' m → m ≠ i := by
            intro m hm hmi
            obtain ⟨hm1, _⟩ := hm
            rw [hmi] at hm1
            rw [hst] at hm1
            exact Status.noConfusion hm1
          have hk' : startsTask (finishTask s i) s' k := by
            refine ⟨?_, hk.2⟩
            rw [htasks k (hnotI k hk)]
            exact hk.1
          have hj' : startsTask (finishTask s i) s' j := by
            refine ⟨?_, hj.2⟩
            rw [htasks j (hnotI j hj)]
            exact hj.1
          exact huniq k j hk' hj'
    | skip =>
      rw [pollLoop_cons_skip alive _ hst]
      have hpre' : ∀ m, m < i + 1 → inactive s m := by
        intro m hm
        by_cases hmi : m = i
        · rw [inactive, hmi]
          exact Or.inl hst
        · exact hpre m (by omega)
      exact ih (i + 1) s hInv hpre'
    | finished =>
      rw [pollLoop_cons_finished alive _ hst]
      have hpre' : ∀ m, m < i + 1 → inactive s m := by
        intro m hm
        by_cases hmi : m = i
        · rw [inactive, hmi]
          exact Or.inr hst
        · exact hpre m (by omega)
      exact ih (i + 1) s hInv hpre'

theorem inv_init (p : ConnectionPrefs) : Inv (initState p) := by
  have hnost : ∀ n, ((initState p).tasks n).status ≠ Status.started := by
    intro n hn
    have : (initTasks p n).status = Status.started := hn
    unfold initTasks at this
    split_ifs at this
  refine ⟨fun n hn => absurd hn (hnost n), ?_, ?_, ?_⟩
  · intro n hn
    exact Option.noConfusion hn
  · intro n hn
    exact Option.noConfusion hn
  · intro n m hn _
    exact absurd hn (hnost n)

theorem taskOrder_eq : taskOrder = List.range' 0 numTasks := rfl

/-- One successful doIdleTasks poll from an invariant state preserves the
invariant, moves every task along an allowed transition, starts at most
one task, and does nothing at all while the current worker is alive. -/
theorem doIdleTasks_spec {alive : Nat → Bool} {s s' : IdleState} {r : Nat}
    (hInv : Inv s) (h : doIdleTasks alive s = some (s', r)) :
    Inv s' ∧ (∀ k, TaskStep alive (s.tasks k) (s'.tasks k)) ∧
      (∀ k j, startsTask s s' k → startsTask s s' j → k = j) := by
  have hloop := pollLoop_spec alive numTasks 0 s hInv (fun m hm => absurd hm (Nat.not_lt_zero m))
  obtain ⟨s₂, r₂, heq, hInv₂, hstep₂, huniq₂⟩ := hloop
  rw [← taskOrder_eq] at heq
  unfold doIdleTasks at h
  cases hc : s.currentTask with
  | none =>
    simp only [hc] at h
    rw [heq] at h
    have hs : s₂ = s' := congrArg Prod.fst (Option.some.inj h)
    rw [← hs]
    exact ⟨hInv₂, hstep₂, huniq₂⟩
  | some ct =>
    simp only [hc] at h
    cases ht : (s.tasks ct).thread with
    | none =>
      simp only [ht] at h
      exact Option.noConfusion h
    | some tid =>
      simp only [ht] at h
      cases ha : alive tid with
      | true =>
        simp only [ha, if_true] at h
        have hs : s = s' := congrArg Prod.fst (Option.some.inj h)
        rw [← hs]
        exact ⟨hInv, fun k => Or.inl rfl, fun k j hk _ => absurd hk startsTask_irrefl⟩
      | false =>
        simp only [ha, Bool.false_eq_true, if_false] at h
        rw [heq] at h
        have hs : s₂ = s' := congrArg Prod.fst (Option.some.inj h)
        rw [← hs]
        exact ⟨hInv₂, hstep₂, huniq₂⟩

/-- Every reachable state satisfies the invariant. -/
theorem reachable_inv {p : ConnectionPrefs} {s : IdleState} (h : Reachable p s) :
    Inv s := by
  induction h with
  | init => exact inv_init p
  | step _ hstep ih => exact (doIdleTasks_spec ih hstep).1

/-- While the current worker thread is alive, the poll returns 0 without
touching any state (idle.py lines 94-95). -/
theorem doIdleTasks_busy {alive : Nat → Bool} {s : IdleState} {ct tid : Nat}
    (hc : s.currentTask = some ct) (ht : (s.tasks ct).thread = some tid)
    (ha : alive tid = true) : doIdleTasks alive s = some (s, 0) := by
  unfold doIdleTasks
  simp only [hc, ht, ha, if_true]

/-- Preference record with both flags cleared, as a concrete test point. -/
def pFF : ConnectionPrefs := { allowUsageStats := false, checkForUpdates := false }

/-- The module state right after import under pFF. -/
def exState0 : IdleState := initState pFF

/-- The state after one poll from exState0: checkNews (index 2) is the
first NOT_STARTED task and gets started. -/
def exState1 : IdleState := startTask exState0 2

theorem exStep01 : doIdleTasks (fun _ => true) exState0 = some (exState1, 0) := rfl

theorem exReach1 : Reachable pFF exState1 :=
  Reachable.step Reachable.init exStep01

/-- C1: at most one idle task runs at a time.  In every state reachable
from the initial task table by doIdleTasks polls, at most one task has
status STARTED; a single poll moves at most one task from NOT_STARTED to
STARTED; and while the current task owns a live thread the poll returns
immediately without changing anything, so no task is started then. -/
theorem idle_single_active (p : ConnectionPrefs) (s : IdleState) (h : Reachable p s) :
    (∀ n m, (s.tasks n).status = Status.started →
      (s.tasks m).status = Status.started → n = m) ∧
    (∀ (alive : Nat → Bool) (s' : IdleState) (r : Nat),
      doIdleTasks alive s = some (s', r) →
      ∀ n m, startsTask s s' n → startsTask s s' m → n = m) ∧
    (∀ (alive : Nat → Bool) (ct tid : Nat), s.currentTask = some ct →
      (s.tasks ct).thread = some tid → alive tid = true →
      doIdleTasks alive s = some (s, 0)) := by
  have hInv := reachable_inv h
  refine ⟨fun n m hn hm => hInv.unique hn hm, ?_, ?_⟩
  · intro alive s' r hstep n m hn hm
    exact (doIdleTasks_spec hInv hstep).2.2 n m hn hm
  · intro alive ct tid hc ht ha
    exact doIdleTasks_busy hc ht ha

theorem idle_single_active_witness :
    (∀ n m, (exState1.tasks n).status = Status.started →
      (exState1.tasks m).status = Status.started → n = m) ∧
    (∀ (alive : Nat → Bool) (s' : IdleState) (r : Nat),
      doIdleTasks alive exState1 = some (s', r) →
      ∀ n m, startsTask exState1 s' n → startsTask exState1 s' m → n = m) ∧
    (∀ (alive : Nat → Bool) (ct tid : Nat), exState1.currentTask = some ct →
      (exState1.tasks ct).thread = some tid → alive tid = true →
      doIdleTasks alive exState1 = some (exState1, 0)) :=
  idle_single_active pFF exState1 exReach1

/-- C3: the preference flags are supposed to gate the two connection
tasks, and sendUsageStats is indeed NOT_STARTED exactly when
allowUsageStats holds; but for checkForUpdates the source (idle.py lines
54-65) assigns SKIP in both branches of the if/else, so the task is
skipped even when the preference is set.  This theorem evaluates the
initial table at the failing input (checkForUpdates preference true). -/
theorem idle_checkForUpdates_gate_bug :
    ((initState { allowUsageStats := true, checkForUpdates := true }).tasks 1).status
        = Status.skip ∧
    ((initState { allowUsageStats := false, checkForUpdates := false }).tasks 1).status
        = Status.skip ∧
    ((initState { allowUsageStats := true, checkForUpdates := true }).tasks 0).status
        = Status.notStarted ∧
    ((initState { allowUsageStats := false, checkForUpdates := false }).tasks 0).status
        = Status.skip :=
  ⟨rfl, rfl, rfl, rfl⟩

/-- C4: a task marked SKIP is never started: a doIdleTasks poll from any
reachable state leaves a SKIP task entirely unchanged (status and thread
slot alike, so no worker thread is ever created for it and its func is
never invoked). -/
theorem idle_skip_frozen (p : ConnectionPrefs) (s : IdleState) (h : Reachable p s)
    (alive : Nat → Bool) (s' : IdleState) (r : Nat)
    (hstep : doIdleTasks alive s = some (s', r)) (n : Nat)
    (hskip : (s.tasks n).status = Status.skip) : s'.tasks n = s.tasks n := by
  have hInv := reachable_inv h
  rcases (doIdleTasks_spec hInv hstep).2.1 n with h1 | h1 | h1
  · exact h1
  · rw [hskip] at h1
    exact absurd h1.1 (fun hc => Status.noConfusion hc)
  · rw [hskip] at h1
    exact absurd h1.1 (fun hc => Status.noConfusion hc)

theorem idle_skip_frozen_witness :
    (exState0.tasks 0).status = Status.skip ∧ exState1.tasks 0 = exState0.tasks 0 :=
  ⟨rfl, idle_skip_frozen pFF exState0 Reachable.init (fun _ => true) exState1 0
    exStep01 0 rfl⟩

/-- C5: each task status follows NOT_STARTED to STARTED to FINISHED under
polling: in one poll a task is either untouched, or moves NOT_STARTED to
STARTED, or moves STARTED to FINISHED because its thread was observed
dead; STARTED is entered only from NOT_STARTED, FINISHED only from
STARTED, a FINISHED task never changes again (so no second start), and
never does a status move backward. -/
theorem idle_status_pipeline (p : ConnectionPrefs) (s : IdleState) (h : Reachable p s)
    (alive : Nat → Bool) (s' : IdleState) (r : Nat)
    (hstep : doIdleTasks alive s = some (s', r)) (n : Nat) :
    (s'.tasks n = s.tasks n
      ∨ ((s.tasks n).status = Status.notStarted ∧ (s'.tasks n).status = Status.started)
      ∨ ((s.tasks n).status = Status.started ∧ (s'.tasks n).status = Status.finished ∧
          ∃ tid, (s.tasks n).thread = some tid ∧ alive tid = false))
    ∧ ((s'.tasks n).status = Status.started →
        (s.tasks n).status = Status.started ∨ (s.tasks n).status = Status.notStarted)
    ∧ ((s'.tasks n).status = Status.finished →
        (s.tasks n).status = Status.finished ∨ (s.tasks n).status = Status.started)
    ∧ ((s.tasks n).status = Status.finished → s'.tasks n = s.tasks n) := by
  have hInv := reachable_inv h
  have hts := (doIdleTasks_spec hInv hstep).2.1 n
  refine ⟨?_, ?_, ?_, ?_⟩
  · rcases hts with h1 | h1 | h1
    · exact Or.inl h1
    · exact Or.inr (Or.inl h1)
    · exact Or.inr (Or.inr ⟨h1.1, h1.2.1, h1.2.2.choose,
        h1.2.2.choose_spec.1, h1.2.2.choose_spec.2.1⟩)
  · intro hns
    rcases hts with h1 | h1 | h1
    · rw [h1] at hns
      exact Or.inl hns
    · exact Or.inr h1.1
    · rw [h1.2.1] at hns
      exact absurd hns (fun hc => Status.noConfusion hc)
  · intro hnf
    rcases hts with h1 | h1 | h1
    · rw [h1] at hnf
      exact Or.inl hnf
    · rw [h1.2] at hnf
      exact absurd hnf (fun hc => Status.noConfusion hc)
    · exact Or.inr h1.1
  · intro hf
    rcases hts with h1 | h1 | h1
    · exact h1
    · rw [hf] at h1
      exact absurd h1.1 (fun hc => Status.noConfusion hc)
    · rw [hf] at h1
      exact absurd h1.1 (fun hc => Status.noConfusion hc)

theorem idle_status_pipeline_witness :
    (exState1.tasks 2 = exState0.tasks 2
      ∨ ((exState0.tasks 2).status = Status.notStarted ∧
          (exState1.tasks 2).status = Status.started)
      ∨ ((exState0.tasks 2).status = Status.started ∧
          (exState1.tasks 2).status = Status.finished ∧
          ∃ tid, (exState0.tasks 2).thread = some tid ∧ (fun (_ : Nat) => true) tid = false))
    ∧ ((exState1.tasks 2).status = Status.started →
        (exState0.tasks 2).status = Status.started ∨
          (exState0.tasks 2).status = Status.notStarted)
    ∧ ((exState1.tasks 2).status = Status.finished →
        (exState0.tasks 2).status = Status.finished ∨
          (exState0.tasks 2).status = Status.started)
    ∧ ((exState0.tasks 2).status = Status.finished → exState1.tasks 2 = exState0.tasks 2) :=
  idle_status_pipeline pFF exState0 Reachable.init (fun _ => true) exState1 0 exStep01 2

end Idle

namespace XHook

/-!
Embedding of the key-state tracking of HookManager
(src/psychopy/iohub/devices/pyXHook.py).  The key_states dict maps a
keysym (an integer) to the number of press events received without a
release; it is modelled as a total function into Option Nat, none meaning
the key is absent from the dict.  The X11 call
local_dpy.keycode_to_keysym(key_code, 0) is an external table lookup and
is passed in as the oracle keycode_to_keysym. -/

/-- updateKeysPressedState (pyXHook.py lines 272-279).  setdefault first
inserts 0 for an absent keysym and returns the stored count; a press
event then overwrites the entry with count + 1, a release event deletes
the entry.  A result of none models an uncaught KeyError from del; the
preceding setdefault makes that branch unreachable. -/
def updateKeysPressedState (keycode_to_keysym : Nat → Nat)
    (key_states : Nat → Option Nat) (key_code : Nat) (pressed_event : Bool) :
    Option (Nat → Option Nat) :=
  let matchto_sym := keycode_to_keysym key_code
  let keyautocount := (key_states matchto_sym).getD 0
  let ks1 : Nat → Option Nat :=
    fun s => if s = matchto_sym then some keyautocount else key_states s
  if pressed_event then
    some (fun s => if s = matchto_sym then some (keyautocount + 1) else ks1 s)
  else
    match ks1 matchto_sym with
    | some _ => some (fun s => if s = matchto_sym then none else ks1 s)
    | none => none

/-- isKeyPressed (pyXHook.py lines 160-166): key_states.get(keysym, 0). -/
def isKeyPressed (key_states : Nat → Option Nat) (keysym : Nat) : Nat :=
  (key_states keysym).getD 0

/-- Key-state dictionaries reachable from the empty dict of __init__
(line 102) by any sequence of processed press/release events. -/
inductive KSReachable (keycode_to_keysym : Nat → Nat) : (Nat → Option Nat) → Prop
  | init : KSReachable keycode_to_keysym (fun _ => none)
  | step {ks ks' : Nat → Option Nat} {key_code : Nat} {pressed : Bool} :
      KSReachable keycode_to_keysym ks →
      updateKeysPressedState keycode_to_keysym ks key_code pressed = some ks' →
      KSReachable keycode_to_keysym ks'

/-- Closed form of a press update: the matched keysym goes to count + 1,
nothing else moves. -/
theorem updateKeysPressedState_true (keycode_to_keysym : Nat → Nat)
    (key_states : Nat → Option Nat) (key_code : Nat) :
    updateKeysPressedState keycode_to_keysym key_states key_code true
      = some (fun s => if s = keycode_to_keysym key_code
          then some ((key_states (keycode_to_keysym key_code)).getD 0 + 1)
          else key_states s) := by
  unfold updateKeysPressedState
  simp only [if_true]
  congr 1
  funext s
  by_cases hs : s = keycode_to_keysym key_code <;> simp [hs]

/-- Closed form of a release update: the matched keysym is removed,
nothing else moves; the del never raises thanks to setdefault. -/
theorem updateKeysPressedState_false (keycode_to_keysym : Nat → Nat)
    (key_states : Nat → Option Nat) (key_code : Nat) :
    updateKeysPressedState keycode_to_keysym key_states key_code false
      = some (fun s => if s = keycode_to_keysym key_code then none else key_states s) := by
  unfold updateKeysPressedState
  simp only [Bool.false_eq_true, if_false, if_true]
  congr 1
  funext s
  by_cases hs : s = keycode_to_keysym key_code <;> simp [hs]

/-- C6: processing a key press increments the repeat count of the keysym
derived from the event keycode by one, inserting the entry with count 1
when it was absent; processing a key release removes the entry; in both
cases every other keysym is untouched. -/
theorem xhook_press_release (keycode_to_keysym : Nat → Nat)
    (key_states : Nat → Option Nat) (key_code : Nat) :
    (∃ ks', updateKeysPressedState keycode_to_keysym key_states key_code true = some ks' ∧
      ks' (keycode_to_keysym key_code)
        = some ((key_states (keycode_to_keysym key_code)).getD 0 + 1) ∧
      (key_states (keycode_to_keysym key_code) = none →
        ks' (keycode_to_keysym key_code) = some 1) ∧
      (∀ s, s ≠ keycode_to_keysym key_code → ks' s = key_states s)) ∧
    (∃ ks', updateKeysPressedState keycode_to_keysym key_states key_code false = some ks' ∧
      ks' (keycode_to_keysym key_code) = none ∧
      (∀ s, s ≠ keycode_to_keysym key_code → ks' s = key_states s)) := by
  constructor
  · refine ⟨_, updateKeysPressedState_true keycode_to_keysym key_states key_code, ?_, ?_, ?_⟩
    · simp
    · intro h
      simp [h]
    · intro s hs
      simp [hs]
  · refine ⟨_, updateKeysPressedState_false keycode_to_keysym key_states key_code, ?_, ?_⟩
    · simp
    · intro s hs
      simp [hs]

theorem xhook_press_release_witness :
    (∃ ks', updateKeysPressedState (fun c => c) (fun _ => none) 7 true = some ks' ∧
      ks' ((fun (c : Nat) => c) 7) = some (((fun (_ : Nat) => (none : Option Nat)) ((fun (c : Nat) => c) 7)).getD 0 + 1) ∧
      ((fun (_ : Nat) => (none : Option Nat)) ((fun (c : Nat) => c) 7) = none →
        ks' ((fun (c : Nat) => c) 7) = some 1) ∧
      (∀ s, s ≠ (fun (c : Nat) => c) 7 → ks' s = (fun (_ : Nat) => (none : Option Nat)) s)) ∧
    (∃ ks', updateKeysPressedState (fun c => c) (fun _ => none) 7 false = some ks' ∧
      ks' ((fun (c : Nat) => c) 7) = none ∧
      (∀ s, s ≠ (fun (c : Nat) => c) 7 → ks' s = (fun (_ : Nat) => (none : Option Nat)) s)) :=
  xhook_press_release (fun c => c) (fun _ => none) 7

/-- C9: in every reachable key-state dict all stored counts are positive,
so isKeyPressed returns 0 exactly when the key is absent and a positive
repeat count otherwise; moreover a release event for an absent key leaves
the dict unchanged and raises nothing, because setdefault inserts the
entry before del removes it. -/
theorem xhook_counts_positive (keycode_to_keysym : Nat → Nat)
    (ks : Nat → Option Nat) (h : KSReachable keycode_to_keysym ks) :
    (∀ sym c, ks sym = some c → 0 < c) ∧
    (∀ sym, (isKeyPressed ks sym = 0 ↔ ks sym = none) ∧
      (ks sym ≠ none → 0 < isKeyPressed ks sym)) ∧
    (∀ key_code, ks (keycode_to_keysym key_code) = none →
      ∃ ks', updateKeysPressedState keycode_to_keysym ks key_code false = some ks' ∧
        ∀ s, ks' s = ks s) := by
  have hpos : ∀ sym c, ks sym = some c → 0 < c := by
    induction h with
    | init =>
      intro sym c hc
      exact Option.noConfusion hc
    | step _ hupd ih =>
      rename_i ks₀ ks₁ key_code pressed _
      intro sym c hc
      cases pressed with
      | true =>
        rw [updateKeysPressedState_true] at hupd
        have hks₁ := Option.some.inj hupd
        rw [← hks₁] at hc
        by_cases hsym : sym = keycode_to_keysym key_code
        · simp only [if_pos hsym] at hc
          have := Option.some.inj hc
          omega
        · simp only [if_neg hsym] at hc
          exact ih sym c hc
      | false =>
        rw [updateKeysPressedState_false] at hupd
        have hks₁ := Option.some.inj hupd
        rw [← hks₁] at hc
        by_cases hsym : sym = keycode_to_keysym key_code
        · simp only [if_pos hsym] at hc
          exact Option.noConfusion hc
        · simp only [if_neg hsym] at hc
          exact ih sym c hc
  refine ⟨hpos, ?_, ?_⟩
  · intro sym
    constructor
    · constructor
      · intro h0
        cases hks : ks sym with
        | none => rfl
        | some c =>
          have := hpos sym c hks
          rw [isKeyPressed, hks] at h0
          simp at h0
          omega
      · intro hnone
        rw [isKeyPressed, hnone]
        rfl
    · intro hne
      cases hks : ks sym with
      | none => exact absurd hks hne
      | some c =>
        rw [isKeyPressed, hks]
        exact hpos sym c hks
  · intro key_code habs
    refine ⟨fun s => if s = keycode_to_keysym key_code then none else ks s,
      updateKeysPressedState_false keycode_to_keysym ks key_code, ?_⟩
    intro s
    by_cases hs : s = keycode_to_keysym key_code
    · simp [if_pos hs, hs, habs]
    · simp only [if_neg hs]

theorem xhook_counts_positive_witness :
    (∀ sym c, (fun (_ : Nat) => (none : Option Nat)) sym = some c → 0 < c) ∧
    (∀ sym, (isKeyPressed (fun _ => none) sym = 0 ↔
        (fun (_ : Nat) => (none : Option Nat)) sym = none) ∧
      ((fun (_ : Nat) => (none : Option Nat)) sym ≠ none →
        0 < isKeyPressed (fun _ => none) sym)) ∧
    (∀ key_code, (fun (_ : Nat) => (none : Option Nat)) ((fun (c : Nat) => c) key_code) = none →
      ∃ ks', updateKeysPressedState (fun c => c) (fun _ => none) key_code false = some ks' ∧
        ∀ s, ks' s = (fun (_ : Nat) => (none : Option Nat)) s) :=
  xhook_counts_positive (fun c => c) (fun _ => none) KSReachable.init

end XHook

namespace FormModel

/-!
Embedding of the Form widget (src/psychopy/visual/form.py).  Items are
dicts; only the key set and the options value steer the validation in
importItems, so an item is modelled by those two components.  The file
system and the pandas readers are oracles: fileExists answers
os.path.exists, readSheet returns the post-dropna content of
read_csv/read_excel as a column list plus the raw options column (one
cell per row).  Geometry is exact rational arithmetic; rendering sizes
(text bounding boxes, response heights) enter _doLayout as an oracle
list of per-item (questionHeight, respHeight) pairs. -/

/-- A form item dict: its key set and the value of its options entry. -/
structure Item where
  keys : List String
  options : List String
deriving DecidableEq, Repr

/-- Python exception classes raised by importItems. -/
inductive PyError where
  | nameError
  | valueError
  | typeError
  | osError
deriving DecidableEq, Repr

/-- The required survey fields (form.py line 127). -/
def surveyFields : List String :=
  ["responseWidth", "layout", "questionText", "type", "questionWidth", "options"]

/-- set(surveyFields) == set(fields) of form.py line 128: mutual
inclusion of the two key collections. -/
def headersMatch (fields : List String) : Prop :=
  (∀ x ∈ surveyFields, x ∈ fields) ∧ (∀ x ∈ fields, x ∈ surveyFields)

instance headersMatch.decidable : DecidablePred headersMatch := fun fields => by
  unfold headersMatch
  infer_instance

/-- _checkHeaders (form.py lines 122-132): NameError unless the field
set equals the required survey fields. -/
def checkHeaders (fields : List String) : Option PyError :=
  if headersMatch fields then none else some PyError.nameError

/-- _checkOptions (form.py lines 111-120): ValueError unless the item
has more than one option. -/
def checkOptions (options : List String) : Option PyError :=
  if options.length > 1 then none else some PyError.valueError

/-- Validation of one dict in the list branch (lines 139-141): headers
first, then options. -/
def checkItem (it : Item) : Option PyError :=
  match checkHeaders it.keys with
  | some e => some e
  | none => checkOptions it.options

/-- The for-loop over the supplied dicts: the first failure raises. -/
def checkItems : List Item → Option PyError
  | [] => none
  | it :: rest =>
    match checkItem it with
    | some e => some e
    | none => checkItems rest

/-- Post-dropna content of a read spreadsheet: its column names and the
raw cells of the options column, one per surviving row. -/
structure Sheet where
  columns : List String
  optionsRaw : List String
deriving DecidableEq, Repr

/-- Python substring containment (needle in s), as used by the extension
tests on lines 152-154: the needle occurs contiguously in s. -/
def containsSubstr (needle s : String) : Bool :=
  go needle.data s.data
where
  go (n : List Char) : List Char → Bool
    | [] => n.isEmpty
    | c :: rest => n.isPrefixOf (c :: rest) || go n rest

/-- Python str.split(sep) on the character list of a string. -/
def splitOnChar (sep : Char) : List Char → List (List Char)
  | [] => [[]]
  | c :: rest =>
    let r := splitOnChar sep rest
    if c = sep then [] :: r
    else
      match r with
      | [] => [[c]]
      | g :: gs => (c :: g) :: gs

/-- The comma split applied to the options column on line 165. -/
def pySplit (sep : Char) (s : String) : List String :=
  (splitOnChar sep s.data).map (fun l => String.mk l)

/-- Row dicts produced from a sheet (lines 165-169): every row carries
the column set as keys and its options cell split on commas. -/
def sheetItems (sh : Sheet) : List Item :=
  sh.optionsRaw.map (fun cell => { keys := sh.columns, options := pySplit (',') cell })

/-- The list comprehension on line 167: first options failure raises. -/
def firstOptionsError : List Item → Option PyError
  | [] => none
  | it :: rest =>
    match checkOptions it.options with
    | some e => some e
    | none => firstOptionsError rest

/-- File branch after a successful read (lines 162-170): check column
headers, split the options column, check each row's options. -/
def processSheet (sh : Sheet) : Except PyError (List Item) :=
  match checkHeaders sh.columns with
  | some e => Except.error e
  | none =>
    let newItems := sheetItems sh
    match firstOptionsError newItems with
    | some e => Except.error e
    | none => Except.ok newItems

/-- The three runtime shapes of the items argument handled by
importItems: a list of dicts, a single dict, or a file path string. -/
inductive ItemsArg where
  | list (items : List Item)
  | dict (item : Item)
  | path (p : String)

/-- Form.importItems (form.py lines 98-174).  Except.error e models an
uncaught exception of class e. -/
def importItems (fileExists : String → Bool) (readSheet : String → Sheet)
    (items : ItemsArg) : Except PyError (List Item) :=
  match items with
  | ItemsArg.list its =>
    match checkItems its with
    | some e => Except.error e
    | none => Except.ok its
  | ItemsArg.dict it =>
    match checkItem it with
    | some e => Except.error e
    | none => Except.ok [it]
  | ItemsArg.path p =>
    if fileExists p then
      if containsSubstr (".csv") p then
        processSheet (readSheet p)
      else if containsSubstr (".xlsx") p || containsSubstr (".xls") p then
        processSheet (readSheet p)
      else
        Except.error PyError.typeError
    else
      Except.error PyError.osError

theorem checkItem_eq_none (it : Item) :
    checkItem it = none ↔ (headersMatch it.keys ∧ it.options.length > 1) := by
  unfold checkItem checkHeaders checkOptions
  by_cases h1 : headersMatch it.keys <;>
    by_cases h2 : it.options.length > 1 <;>
      simp [h1, h2]

theorem checkItem_error {it : Item} {e : PyError} (h : checkItem it = some e) :
    e = PyError.nameError ∨ e = PyError.valueError := by
  unfold checkItem checkHeaders checkOptions at h
  by_cases h1 : headersMatch it.keys
  · rw [if_pos h1] at h
    by_cases h2 : it.options.length > 1
    · rw [if_pos h2] at h
      exact Option.noConfusion h
    · rw [if_neg h2] at h
      exact Or.inr (Option.some.inj h).symm
  · rw [if_neg h1] at h
    exact Or.inl (Option.some.inj h).symm

theorem checkItems_eq_none (its : List Item) :
    checkItems its = none ↔ ∀ it ∈ its, headersMatch it.keys ∧ it.options.length > 1 := by
  induction its with
  | nil => simp [checkItems]
  | cons it rest ih =>
    unfold checkItems
    cases hc : checkItem it with
    | some e =>
      simp only [List.mem_cons]
      constructor
      · intro h
        exact Option.noConfusion h
      · intro h
        have hnone := (checkItem_eq_none it).2 (h it (Or.inl rfl))
        rw [hnone] at hc
        exact Option.noConfusion hc
    | none =>
      simp only [ih, List.mem_cons]
      constructor
      · intro h x hx
        rcases hx with hx | hx
        · rw [hx]
          exact (checkItem_eq_none it).1 hc
        · exact h x hx
      · intro h x hx
        exact h x (Or.inr hx)

theorem checkItems_error {its : List Item} {e : PyError} (h : checkItems its = some e) :
    e = PyError.nameError ∨ e = PyError.valueError := by
  induction its with
  | nil => exact Option.noConfusion h
  | cons it rest ih =>
    unfold checkItems at h
    cases hc : checkItem it with
    | some e' =>
      rw [hc] at h
      rw [← Option.some.inj h]
      exact checkItem_error hc
    | none =>
      rw [hc] at h
      exact ih h

theorem firstOptionsError_error {its : List Item} {e : PyError}
    (h : firstOptionsError its = some e) : e = PyError.valueError := by
  induction its with
  | nil => exact Option.noConfusion h
  | cons it rest ih =>
    unfold firstOptionsError at h
    cases hc : checkOptions it.options with
    | some e' =>
      rw [hc] at h
      unfold checkOptions at hc
      by_cases h2 : it.options.length > 1
      · rw [if_pos h2] at hc
        exact Option.noConfusion hc
      · rw [if_neg h2] at hc
        rw [← Option.some.inj h, ← Option.some.inj hc]
    | none =>
      rw [hc] at h
      exact ih h

theorem checkHeaders_eq_none (fields : List String) :
    checkHeaders fields = none ↔ headersMatch fields := by
  unfold checkHeaders
  by_cases h : headersMatch fields <;> simp [h]

theorem checkHeaders_eq_some {fields : List String} {e : PyError}
    (h : checkHeaders fields = some e) :
    ¬ headersMatch fields ∧ e = PyError.nameError := by
  unfold checkHeaders at h
  by_cases h1 : headersMatch fields
  · rw [if_pos h1] at h
    exact Option.noConfusion h
  · rw [if_neg h1] at h
    exact ⟨h1, (Option.some.inj h).symm⟩

theorem checkItem_eq_some_name (it : Item) :
    checkItem it = some PyError.nameError ↔ ¬ headersMatch it.keys := by
  unfold checkItem checkHeaders checkOptions
  by_cases h1 : headersMatch it.keys <;>
    by_cases h2 : it.options.length > 1 <;>
      simp [h1, h2]

theorem checkItem_eq_some_value (it : Item) :
    checkItem it = some PyError.valueError ↔
      (headersMatch it.keys ∧ ¬ it.options.length > 1) := by
  unfold checkItem checkHeaders checkOptions
  by_cases h1 : headersMatch it.keys <;>
    by_cases h2 : it.options.length > 1 <;>
      simp [h1, h2]

theorem processSheet_error {sh : Sheet} {e : PyError}
    (h : processSheet sh = Except.error e) :
    e = PyError.nameError ∨ e = PyError.valueError := by
  unfold processSheet at h
  cases hh : checkHeaders sh.columns with
  | some e' =>
    rw [hh] at h
    unfold checkHeaders at hh
    by_cases h1 : headersMatch sh.columns
    · rw [if_pos h1] at hh
      exact Option.noConfusion hh
    · rw [if_neg h1] at hh
      have he : e' = e := by
        injection h
      rw [← he, ← Option.some.inj hh]
      exact Or.inl rfl
  | none =>
    simp only [hh] at h
    cases ho : firstOptionsError (sheetItems sh) with
    | some e' =>
      rw [ho] at h
      have he : e' = e := by
        injection h
      exact Or.inr (he ▸ firstOptionsError_error ho)
    | none =>
      rw [ho] at h
      exact Except.noConfusion h

theorem checkItems_append_fail (pre : List Item) (it : Item) (post : List Item)
    (hpre : ∀ j ∈ pre, headersMatch j.keys ∧ j.options.length > 1)
    (hit : ¬ headersMatch it.keys) :
    checkItems (pre ++ it :: post) = some PyError.nameError := by
  induction pre with
  | nil =>
    simp only [List.nil_append]
    unfold checkItems
    have hcheck : checkItem it = some PyError.nameError := by
      unfold checkItem checkHeaders
      rw [if_neg hit]
    rw [hcheck]
  | cons j rest ih =>
    have hj : checkItem j = none :=
      (checkItem_eq_none j).2 (hpre j (List.mem_cons_self j rest))
    have hrest : ∀ x ∈ rest, headersMatch x.keys ∧ x.options.length > 1 :=
      fun x hx => hpre x (List.mem_cons_of_mem j hx)
    simp only [List.cons_append]
    unfold checkItems
    rw [hj]
    exact ih hrest

theorem checkItems_append_value (pre : List Item) (it : Item) (post : List Item)
    (hpre : ∀ j ∈ pre, headersMatch j.keys ∧ j.options.length > 1)
    (hhead : headersMatch it.keys) (hopt : ¬ it.options.length > 1) :
    checkItems (pre ++ it :: post) = some PyError.valueError := by
  induction pre with
  | nil =>
    simp only [List.nil_append]
    unfold checkItems
    have hcheck : checkItem it = some PyError.valueError :=
      (checkItem_eq_some_value it).2 ⟨hhead, hopt⟩
    rw [hcheck]
  | cons j rest ih =>
    have hj : checkItem j = none :=
      (checkItem_eq_none j).2 (hpre j (List.mem_cons_self j rest))
    have hrest : ∀ x ∈ rest, headersMatch x.keys ∧ x.options.length > 1 :=
      fun x hx => hpre x (List.mem_cons_of_mem j hx)
    simp only [List.cons_append]
    unfold checkItems
    rw [hj]
    exact ih hrest

/-- The list check yields NameError exactly when the first failing item
fails the header check: some split pre ++ it :: post with every item of
pre passing both checks and it having a wrong key set. -/
theorem checkItems_eq_some_name (its : List Item) :
    checkItems its = some PyError.nameError ↔
      ∃ pre it post, its = pre ++ it :: post ∧
        (∀ j ∈ pre, headersMatch j.keys ∧ j.options.length > 1) ∧
        ¬ headersMatch it.keys := by
  constructor
  · intro h
    induction its with
    | nil => exact Option.noConfusion h
    | cons it rest ih =>
      unfold checkItems at h
      cases hc : checkItem it with
      | some e =>
        rw [hc] at h
        have he : e = PyError.nameError := Option.some.inj h
        rw [he] at hc
        refine ⟨[], it, rest, rfl, ?_, (checkItem_eq_some_name it).1 hc⟩
        intro j hj
        exact absurd hj (List.not_mem_nil j)
      | none =>
        rw [hc] at h
        obtain ⟨pre, x, post, heq, hpre, hx⟩ := ih h
        refine ⟨it :: pre, x, post, by rw [heq, List.cons_append], ?_, hx⟩
        intro j hj
        rcases List.mem_cons.1 hj with hj | hj
        · rw [hj]
          exact (checkItem_eq_none it).1 hc
        · exact hpre j hj
  · rintro ⟨pre, x, post, heq, hpre, hx⟩
    rw [heq]
    exact checkItems_append_fail pre x post hpre hx

/-- The list check yields ValueError exactly when the first failing item
passes the header check but has at most one option. -/
theorem checkItems_eq_some_value (its : List Item) :
    checkItems its = some PyError.valueError ↔
      ∃ pre it post, its = pre ++ it :: post ∧
        (∀ j ∈ pre, headersMatch j.keys ∧ j.options.length > 1) ∧
        headersMatch it.keys ∧ ¬ it.options.length > 1 := by
  constructor
  · intro h
    induction its with
    | nil => exact Option.noConfusion h
    | cons it rest ih =>
      unfold checkItems at h
      cases hc : checkItem it with
      | some e =>
        rw [hc] at h
        have he : e = PyError.valueError := Option.some.inj h
        rw [he] at hc
        obtain ⟨hh, ho⟩ := (checkItem_eq_some_value it).1 hc
        refine ⟨[], it, rest, rfl, ?_, hh, ho⟩
        intro j hj
        exact absurd hj (List.not_mem_nil j)
      | none =>
        rw [hc] at h
        obtain ⟨pre, x, post, heq, hpre, hx⟩ := ih h
        refine ⟨it :: pre, x, post, by rw [heq, List.cons_append], ?_, hx⟩
        intro j hj
        rcases List.mem_cons.1 hj with hj | hj
        · rw [hj]
          exact (checkItem_eq_none it).1 hc
        · exact hpre j hj
  · rintro ⟨pre, x, post, heq, hpre, hh, ho⟩
    rw [heq]
    exact checkItems_append_value pre x post hpre hh ho

theorem firstOptionsError_eq_none (l : List Item) :
    firstOptionsError l = none ↔ ∀ it ∈ l, it.options.length > 1 := by
  induction l with
  | nil => simp [firstOptionsError]
  | cons it rest ih =>
    unfold firstOptionsError
    cases hc : checkOptions it.options with
    | some e =>
      have h2 : ¬ it.options.length > 1 := by
        unfold checkOptions at hc
        by_cases h2 : it.options.length > 1
        · rw [if_pos h2] at hc
          exact Option.noConfusion hc
        · exact h2
      simp only [List.mem_cons]
      constructor
      · intro h
        exact Option.noConfusion h
      · intro h
        exact absurd (h it (Or.inl rfl)) h2
    | none =>
      have h2 : it.options.length > 1 := by
        unfold checkOptions at hc
        by_cases h2 : it.options.length > 1
        · exact h2
        · rw [if_neg h2] at hc
          exact Option.noConfusion hc
      simp only [ih, List.mem_cons]
      constructor
      · intro h x hx
        rcases hx with hx | hx
        · rw [hx]
          exact h2
        · exact h x hx
      · intro h x hx
        exact h x (Or.inr hx)

theorem firstOptionsError_eq_some_value (l : List Item) :
    firstOptionsError l = some PyError.valueError ↔
      ∃ it ∈ l, ¬ it.options.length > 1 := by
  induction l with
  | nil => simp [firstOptionsError]
  | cons it rest ih =>
    unfold firstOptionsError
    cases hc : checkOptions it.options with
    | some e =>
      have h2 : ¬ it.options.length > 1 := by
        unfold checkOptions at hc
        by_cases h2 : it.options.length > 1
        · rw [if_pos h2] at hc
          exact Option.noConfusion hc
        · exact h2
      have he : e = PyError.valueError := by
        unfold checkOptions at hc
        rw [if_neg h2] at hc
        exact (Option.some.inj hc).symm
      rw [he]
      simp only [List.mem_cons]
      constructor
      · intro _
        exact ⟨it, Or.inl rfl, h2⟩
      · intro _
        trivial
    | none =>
      have h2 : it.options.length > 1 := by
        unfold checkOptions at hc
        by_cases h2 : it.options.length > 1
        · exact h2
        · rw [if_neg h2] at hc
          exact Option.noConfusion hc
      simp only [ih, List.mem_cons]
      constructor
      · rintro ⟨x, hx, hlen⟩
        exact ⟨x, Or.inr hx, hlen⟩
      · rintro ⟨x, hx, hlen⟩
        rcases hx with hx | hx
        · rw [hx] at hlen
          exact absurd h2 hlen
        · exact ⟨x, hx, hlen⟩

theorem sheetItems_options_all (sh : Sheet) :
    (∀ it ∈ sheetItems sh, it.options.length > 1) ↔
      (∀ cell ∈ sh.optionsRaw, (pySplit (',') cell).length > 1) := by
  unfold sheetItems
  constructor
  · intro h cell hc
    exact h _ (List.mem_map_of_mem _ hc)
  · intro h it hit
    obtain ⟨cell, hc, hcell⟩ := List.mem_map.1 hit
    rw [← hcell]
    exact h cell hc

theorem sheetItems_options_exists (sh : Sheet) :
    (∃ it ∈ sheetItems sh, ¬ it.options.length > 1) ↔
      (∃ cell ∈ sh.optionsRaw, ¬ (pySplit (',') cell).length > 1) := by
  unfold sheetItems
  constructor
  · rintro ⟨it, hit, hlen⟩
    obtain ⟨cell, hc, hcell⟩ := List.mem_map.1 hit
    rw [← hcell] at hlen
    exact ⟨cell, hc, hlen⟩
  · rintro ⟨cell, hc, hlen⟩
    exact ⟨_, List.mem_map_of_mem _ hc, hlen⟩

/-- Reduction of the file branch after a passing header check. -/
theorem processSheet_eq_of_headers {sh : Sheet}
    (hh : checkHeaders sh.columns = none) :
    processSheet sh = match firstOptionsError (sheetItems sh) with
      | some e => Except.error e
      | none => Except.ok (sheetItems sh) := by
  unfold processSheet
  rw [hh]

/-- The sheet import succeeds, with exactly the row dicts of the sheet,
if and only if the columns match the survey fields and every row has
more than one comma-separated option. -/
theorem processSheet_eq_ok (sh : Sheet) :
    processSheet sh = Except.ok (sheetItems sh) ↔
      (headersMatch sh.columns ∧
        ∀ cell ∈ sh.optionsRaw, (pySplit (',') cell).length > 1) := by
  cases hh : checkHeaders sh.columns with
  | some e =>
    obtain ⟨h1, he⟩ := checkHeaders_eq_some hh
    constructor
    · intro h
      unfold processSheet at h
      rw [hh] at h
      exact Except.noConfusion h
    · rintro ⟨hhm, _⟩
      exact absurd hhm h1
  | none =>
    rw [processSheet_eq_of_headers hh]
    have h1 : headersMatch sh.columns := (checkHeaders_eq_none _).1 hh
    cases ho : firstOptionsError (sheetItems sh) with
    | some e =>
      constructor
      · intro h
        exact Except.noConfusion h
      · rintro ⟨_, hall⟩
        have hnone : firstOptionsError (sheetItems sh) = none :=
          (firstOptionsError_eq_none _).2 ((sheetItems_options_all sh).2 hall)
        rw [hnone] at ho
        exact Option.noConfusion ho
    | none =>
      constructor
      · intro _
        exact ⟨h1, (sheetItems_options_all sh).1 ((firstOptionsError_eq_none _).1 ho)⟩
      · intro _
        rfl

/-- The sheet import raises NameError exactly when the column set
differs from the survey fields. -/
theorem processSheet_eq_name (sh : Sheet) :
    processSheet sh = Except.error PyError.nameError ↔
      ¬ headersMatch sh.columns := by
  cases hh : checkHeaders sh.columns with
  | some e =>
    obtain ⟨h1, he⟩ := checkHeaders_eq_some hh
    constructor
    · intro _
      exact h1
    · intro _
      unfold processSheet
      rw [hh, he]
  | none =>
    have h1 : headersMatch sh.columns := (checkHeaders_eq_none _).1 hh
    rw [processSheet_eq_of_headers hh]
    cases ho : firstOptionsError (sheetItems sh) with
    | some e =>
      have he : e = PyError.valueError := firstOptionsError_error ho
      rw [he]
      constructor
      · intro h
        have hpe : PyError.valueError = PyError.nameError := by
          injection h
        exact PyError.noConfusion hpe
      · intro h
        exact absurd h1 h
    | none =>
      constructor
      · intro h
        exact Except.noConfusion h
      · intro h
        exact absurd h1 h

/-- The sheet import raises ValueError exactly when the columns match
but some row has at most one comma-separated option. -/
theorem processSheet_eq_value (sh : Sheet) :
    processSheet sh = Except.error PyError.valueError ↔
      (headersMatch sh.columns ∧
        ∃ cell ∈ sh.optionsRaw, ¬ (pySplit (',') cell).length > 1) := by
  cases hh : checkHeaders sh.columns with
  | some e =>
    obtain ⟨h1, he⟩ := checkHeaders_eq_some hh
    constructor
    · intro h
      unfold processSheet at h
      rw [hh, he] at h
      have hpe : PyError.nameError = PyError.valueError := by
        injection h
      exact PyError.noConfusion hpe
    · rintro ⟨hhm, _⟩
      exact absurd hhm h1
  | none =>
    have h1 : headersMatch sh.columns := (checkHeaders_eq_none _).1 hh
    rw [processSheet_eq_of_headers hh]
    cases ho : firstOptionsError (sheetItems sh) with
    | some e =>
      have he : e = PyError.valueError := firstOptionsError_error ho
      rw [he] at ho
      constructor
      · intro _
        exact ⟨h1, (sheetItems_options_exists sh).1
          ((firstOptionsError_eq_some_value _).1 ho)⟩
      · intro _
        rw [he]
    | none =>
      constructor
      · intro h
        exact Except.noConfusion h
      · rintro ⟨_, hex⟩
        have hsome : firstOptionsError (sheetItems sh) = some PyError.valueError :=
          (firstOptionsError_eq_some_value _).2 ((sheetItems_options_exists sh).2 hex)
        rw [hsome] at ho
        exact Option.noConfusion ho

/-- C2 (counterexample): importItems does NOT raise exactly on the three
listed paths.  First, a path whose file does not exist raises OSError
(form.py line 174), an unlisted fourth failure path, although its
extension .csv is fine.  Second, the source tests substring containment,
not the extension: the existing file data.xls.zip has extension .zip, so
the claim demands TypeError, but the code finds the substring .xls,
reads the sheet and returns its rows. -/
theorem form_import_paths_counterexample :
    importItems (fun _ => false) (fun _ => { columns := [], optionsRaw := [] })
        (ItemsArg.path ("missing.csv")) = Except.error PyError.osError ∧
    importItems (fun _ => true)
        (fun _ => { columns := surveyFields, optionsRaw := ["one,two"] })
        (ItemsArg.path ("data.xls.zip"))
      = Except.ok [{ keys := surveyFields, options := ["one", "two"] }] :=
  ⟨rfl, rfl⟩

/-- An existing path containing one of the three substrings is handed to
the sheet reader and validated by the file branch (lines 149-170). -/
theorem importItems_path_readable (fileExists : String → Bool)
    (readSheet : String → Sheet) (p : String) (hf : fileExists p = true)
    (hsub : containsSubstr (".csv") p = true ∨ containsSubstr (".xlsx") p = true ∨
      containsSubstr (".xls") p = true) :
    importItems fileExists readSheet (ItemsArg.path p) = processSheet (readSheet p) := by
  simp only [importItems]
  rw [if_pos hf]
  by_cases hcsv : containsSubstr (".csv") p = true
  · rw [if_pos hcsv]
  · rw [if_neg hcsv]
    have hx : (containsSubstr (".xlsx") p || containsSubstr (".xls") p) = true := by
      rcases hsub with h | h | h
      · exact absurd h hcsv
      · rw [h]
        rfl
      · rw [h]
        cases containsSubstr (".xlsx") p <;> rfl
    rw [if_pos hx]

/-- C2 (amended): importItems raises on exactly four validated failure
paths and no others.  NameError when the first failing item (in list
order, headers before options) has a field set differing from the survey
fields, or when a read sheet's column set differs; ValueError when the
first failing item passes the header check but has at most one option,
or when a read sheet has a row with at most one comma-separated option;
TypeError for an existing path containing none of the substrings .csv,
.xlsx, .xls; OSError for a nonexistent path.  Every other input imports
without raising: a list or dict whose items all pass both checks is
returned unchanged, and an existing readable sheet passing both checks
yields its row dicts. -/
theorem form_import_error_paths (fileExists : String → Bool) (readSheet : String → Sheet) :
    (∀ its, importItems fileExists readSheet (ItemsArg.list its) = Except.ok its ↔
      ∀ it ∈ its, headersMatch it.keys ∧ it.options.length > 1) ∧
    (∀ its e, importItems fileExists readSheet (ItemsArg.list its) = Except.error e →
      e = PyError.nameError ∨ e = PyError.valueError) ∧
    (∀ it, importItems fileExists readSheet (ItemsArg.dict it) = Except.ok [it] ↔
      (headersMatch it.keys ∧ it.options.length > 1)) ∧
    (∀ it e, importItems fileExists readSheet (ItemsArg.dict it) = Except.error e →
      e = PyError.nameError ∨ e = PyError.valueError) ∧
    (∀ p, importItems fileExists readSheet (ItemsArg.path p) = Except.error PyError.osError
      ↔ fileExists p = false) ∧
    (∀ p, importItems fileExists readSheet (ItemsArg.path p) = Except.error PyError.typeError
      ↔ (fileExists p = true ∧ containsSubstr (".csv") p = false ∧
          containsSubstr (".xlsx") p = false ∧ containsSubstr (".xls") p = false)) ∧
    (∀ its, importItems fileExists readSheet (ItemsArg.list its)
        = Except.error PyError.nameError ↔
      ∃ pre it post, its = pre ++ it :: post ∧
        (∀ j ∈ pre, headersMatch j.keys ∧ j.options.length > 1) ∧
        ¬ headersMatch it.keys) ∧
    (∀ its, importItems fileExists readSheet (ItemsArg.list its)
        = Except.error PyError.valueError ↔
      ∃ pre it post, its = pre ++ it :: post ∧
        (∀ j ∈ pre, headersMatch j.keys ∧ j.options.length > 1) ∧
        headersMatch it.keys ∧ ¬ it.options.length > 1) ∧
    (∀ it, importItems fileExists readSheet (ItemsArg.dict it)
        = Except.error PyError.nameError ↔ ¬ headersMatch it.keys) ∧
    (∀ it, importItems fileExists readSheet (ItemsArg.dict it)
        = Except.error PyError.valueError ↔
      (headersMatch it.keys ∧ ¬ it.options.length > 1)) ∧
    (∀ p, fileExists p = true →
      (containsSubstr (".csv") p = true ∨ containsSubstr (".xlsx") p = true ∨
        containsSubstr (".xls") p = true) →
      importItems fileExists readSheet (ItemsArg.path p) = processSheet (readSheet p)) ∧
    (∀ p, fileExists p = true →
      (containsSubstr (".csv") p = true ∨ containsSubstr (".xlsx") p = true ∨
        containsSubstr (".xls") p = true) →
      ((importItems fileExists readSheet (ItemsArg.path p)
          = Except.ok (sheetItems (readSheet p)) ↔
        (headersMatch (readSheet p).columns ∧
          ∀ cell ∈ (readSheet p).optionsRaw, (pySplit (',') cell).length > 1)) ∧
       (importItems fileExists readSheet (ItemsArg.path p)
          = Except.error PyError.nameError ↔
        ¬ headersMatch (readSheet p).columns) ∧
       (importItems fileExists readSheet (ItemsArg.path p)
          = Except.error PyError.valueError ↔
        (headersMatch (readSheet p).columns ∧
          ∃ cell ∈ (readSheet p).optionsRaw, ¬ (pySplit (',') cell).length > 1)))) := by
  have bool_eq_false : ∀ {b : Bool}, ¬ b = true → b = false := by
    intro b h
    cases b
    · rfl
    · exact absurd rfl h
  have bool_or_false : ∀ {a b : Bool}, ¬ (a || b) = true → a = false ∧ b = false := by
    intro a b h
    cases a
    · cases b
      · exact ⟨rfl, rfl⟩
      · exact absurd rfl h
    · exact absurd rfl h
  refine ⟨?_, ?_, ?_, ?_, ?_, ?_, ?_, ?_, ?_, ?_, ?_, ?_⟩
  · intro its
    simp only [importItems]
    cases hc : checkItems its with
    | some e =>
      simp only [hc]
      constructor
      · intro h
        exact Except.noConfusion h
      · intro h
        have hn := (checkItems_eq_none its).2 h
        rw [hn] at hc
        exact Option.noConfusion hc
    | none =>
      simp only [hc, Except.ok.injEq, true_iff]
      exact (checkItems_eq_none its).1 hc
  · intro its e h
    simp only [importItems] at h
    cases hc : checkItems its with
    | some e' =>
      rw [hc] at h
      have he : e' = e := by
        injection h
      exact he ▸ checkItems_error hc
    | none =>
      rw [hc] at h
      exact Except.noConfusion h
  · intro it
    simp only [importItems]
    cases hc : checkItem it with
    | some e =>
      simp only [hc]
      constructor
      · intro h
        exact Except.noConfusion h
      · intro h
        have hn := (checkItem_eq_none it).2 h
        rw [hn] at hc
        exact Option.noConfusion hc
    | none =>
      simp only [hc, Except.ok.injEq, List.cons.injEq, and_true, true_iff]
      exact (checkItem_eq_none it).1 hc
  · intro it e h
    simp only [importItems] at h
    cases hc : checkItem it with
    | some e' =>
      rw [hc] at h
      have he : e' = e := by
        injection h
      exact he ▸ checkItem_error hc
    | none =>
      rw [hc] at h
      exact Except.noConfusion h
  · intro p
    simp only [importItems]
    by_cases hf : fileExists p = true
    · rw [if_pos hf]
      constructor
      · intro h
        by_cases hcsv : containsSubstr (".csv") p = true
        · rw [if_pos hcsv] at h
          rcases processSheet_error h with h1 | h1 <;> exact PyError.noConfusion h1
        · rw [if_neg hcsv] at h
          by_cases hx : (containsSubstr (".xlsx") p || containsSubstr (".xls") p) = true
          · rw [if_pos hx] at h
            rcases processSheet_error h with h1 | h1 <;> exact PyError.noConfusion h1
          · rw [if_neg hx] at h
            have hte : PyError.typeError = PyError.osError := by
              injection h
            exact PyError.noConfusion hte
      · intro h
        rw [hf] at h
        exact Bool.noConfusion h
    · rw [if_neg hf]
      exact ⟨fun _ => bool_eq_false hf, fun _ => rfl⟩
  · intro p
    simp only [importItems]
    by_cases hf : fileExists p = true
    · rw [if_pos hf]
      by_cases hcsv : containsSubstr (".csv") p = true
      · rw [if_pos hcsv]
        constructor
        · intro h
          rcases processSheet_error h with h1 | h1 <;> exact PyError.noConfusion h1
        · intro h
          rw [hcsv] at h
          exact Bool.noConfusion h.2.1
      · rw [if_neg hcsv]
        by_cases hx : (containsSubstr (".xlsx") p || containsSubstr (".xls") p) = true
        · rw [if_pos hx]
          constructor
          · intro h
            rcases processSheet_error h with h1 | h1 <;> exact PyError.noConfusion h1
          · intro h
            rw [h.2.2.1, h.2.2.2] at hx
            exact Bool.noConfusion hx
        · rw [if_neg hx]
          have hx' := bool_or_false hx
          exact ⟨fun _ => ⟨hf, bool_eq_false hcsv, hx'.1, hx'.2⟩, fun _ => rfl⟩
    · rw [if_neg hf]
      constructor
      · intro h
        have hte : PyError.osError = PyError.typeError := by
          injection h
        exact PyError.noConfusion hte
      · intro h
        exact absurd h.1 hf
  · intro its
    simp only [importItems]
    cases hc : checkItems its with
    | some e =>
      simp only [hc]
      constructor
      · intro h
        have he : e = PyError.nameError := by
          injection h
        rw [he] at hc
        exact (checkItems_eq_some_name its).1 hc
      · intro h
        have hn := (checkItems_eq_some_name its).2 h
        rw [hn] at hc
        have he : e = PyError.nameError := (Option.some.inj hc).symm
        rw [he]
    | none =>
      simp only [hc]
      constructor
      · intro h
        exact Except.noConfusion h
      · intro h
        have hn := (checkItems_eq_some_name its).2 h
        rw [hn] at hc
        exact Option.noConfusion hc
  · intro its
    simp only [importItems]
    cases hc : checkItems its with
    | some e =>
      simp only [hc]
      constructor
      · intro h
        have he : e = PyError.valueError := by
          injection h
        rw [he] at hc
        exact (checkItems_eq_some_value its).1 hc
      · intro h
        have hn := (checkItems_eq_some_value its).2 h
        rw [hn] at hc
        have he : e = PyError.valueError := (Option.some.inj hc).symm
        rw [he]
    | none =>
      simp only [hc]
      constructor
      · intro h
        exact Except.noConfusion h
      · intro h
        have hn := (checkItems_eq_some_value its).2 h
        rw [hn] at hc
        exact Option.noConfusion hc
  · intro it
    simp only [importItems]
    cases hc : checkItem it with
    | some e =>
      simp only [hc]
      constructor
      · intro h
        have he : e = PyError.nameError := by
          injection h
        rw [he] at hc
        exact (checkItem_eq_some_name it).1 hc
      · intro h
        have hn := (checkItem_eq_some_name it).2 h
        rw [hn] at hc
        have he : e = PyError.nameError := (Option.some.inj hc).symm
        rw [he]
    | none =>
      simp only [hc]
      constructor
      · intro h
        exact Except.noConfusion h
      · intro h
        have hn := (checkItem_eq_some_name it).2 h
        rw [hn] at hc
        exact Option.noConfusion hc
  · intro it
    simp only [importItems]
    cases hc : checkItem it with
    | some e =>
      simp only [hc]
      constructor
      · intro h
        have he : e = PyError.valueError := by
          injection h
        rw [he] at hc
        exact (checkItem_eq_some_value it).1 hc
      · intro h
        have hn := (checkItem_eq_some_value it).2 h
        rw [hn] at hc
        have he : e = PyError.valueError := (Option.some.inj hc).symm
        rw [he]
    | none =>
      simp only [hc]
      constructor
      · intro h
        exact Except.noConfusion h
      · intro h
        have hn := (checkItem_eq_some_value it).2 h
        rw [hn] at hc
        exact Option.noConfusion hc
  · intro p hf hsub
    exact importItems_path_readable fileExists readSheet p hf hsub
  · intro p hf hsub
    rw [importItems_path_readable fileExists readSheet p hf hsub]
    exact ⟨processSheet_eq_ok (readSheet p), processSheet_eq_name (readSheet p),
      processSheet_eq_value (readSheet p)⟩

/-- The concrete file-system and reader oracles used to witness C2. -/
def exFileExists : String → Bool := fun _ => true

/-- Reader oracle answering every path with a survey-field sheet whose
single row has two comma-separated options. -/
def exReadSheet : String → Sheet :=
  fun _ => { columns := surveyFields, optionsRaw := ["one,two"] }

theorem form_import_error_paths_witness :
    (∀ its, importItems exFileExists exReadSheet (ItemsArg.list its) = Except.ok its ↔
      ∀ it ∈ its, headersMatch it.keys ∧ it.options.length > 1) ∧
    (∀ its e, importItems exFileExists exReadSheet (ItemsArg.list its) = Except.error e →
      e = PyError.nameError ∨ e = PyError.valueError) ∧
    (∀ it, importItems exFileExists exReadSheet (ItemsArg.dict it) = Except.ok [it] ↔
      (headersMatch it.keys ∧ it.options.length > 1)) ∧
    (∀ it e, importItems exFileExists exReadSheet (ItemsArg.dict it) = Except.error e →
      e = PyError.nameError ∨ e = PyError.valueError) ∧
    (∀ p, importItems exFileExists exReadSheet (ItemsArg.path p)
        = Except.error PyError.osError ↔ exFileExists p = false) ∧
    (∀ p, importItems exFileExists exReadSheet (ItemsArg.path p)
        = Except.error PyError.typeError
      ↔ (exFileExists p = true ∧ containsSubstr (".csv") p = false ∧
          containsSubstr (".xlsx") p = false ∧ containsSubstr (".xls") p = false)) ∧
    (∀ its, importItems exFileExists exReadSheet (ItemsArg.list its)
        = Except.error PyError.nameError ↔
      ∃ pre it post, its = pre ++ it :: post ∧
        (∀ j ∈ pre, headersMatch j.keys ∧ j.options.length > 1) ∧
        ¬ headersMatch it.keys) ∧
    (∀ its, importItems exFileExists exReadSheet (ItemsArg.list its)
        = Except.error PyError.valueError ↔
      ∃ pre it post, its = pre ++ it :: post ∧
        (∀ j ∈ pre, headersMatch j.keys ∧ j.options.length > 1) ∧
        headersMatch it.keys ∧ ¬ it.options.length > 1) ∧
    (∀ it, importItems exFileExists exReadSheet (ItemsArg.dict it)
        = Except.error PyError.nameError ↔ ¬ headersMatch it.keys) ∧
    (∀ it, importItems exFileExists exReadSheet (ItemsArg.dict it)
        = Except.error PyError.valueError ↔
      (headersMatch it.keys ∧ ¬ it.options.length > 1)) ∧
    (∀ p, exFileExists p = true →
      (containsSubstr (".csv") p = true ∨ containsSubstr (".xlsx") p = true ∨
        containsSubstr (".xls") p = true) →
      importItems exFileExists exReadSheet (ItemsArg.path p)
        = processSheet (exReadSheet p)) ∧
    (∀ p, exFileExists p = true →
      (containsSubstr (".csv") p = true ∨ containsSubstr (".xlsx") p = true ∨
        containsSubstr (".xls") p = true) →
      ((importItems exFileExists exReadSheet (ItemsArg.path p)
          = Except.ok (sheetItems (exReadSheet p)) ↔
        (headersMatch (exReadSheet p).columns ∧
          ∀ cell ∈ (exReadSheet p).optionsRaw, (pySplit (',') cell).length > 1)) ∧
       (importItems exFileExists exReadSheet (ItemsArg.path p)
          = Except.error PyError.nameError ↔
        ¬ headersMatch (exReadSheet p).columns) ∧
       (importItems exFileExists exReadSheet (ItemsArg.path p)
          = Except.error PyError.valueError ↔
        (headersMatch (exReadSheet p).columns ∧
          ∃ cell ∈ (exReadSheet p).optionsRaw, ¬ (pySplit (',') cell).length > 1)))) :=
  form_import_error_paths exFileExists exReadSheet

/-- C7 (counterexample): importItems does NOT raise NameError whenever
some dict in the list has a wrong key set: validation walks the list in
order and checks headers before options within each dict, so a list
whose first dict has correct keys but a single option and whose second
dict has wrong keys raises ValueError, not NameError. -/
theorem form_required_fields_counterexample :
    importItems (fun _ => true) (fun _ => { columns := [], optionsRaw := [] })
        (ItemsArg.list [{ keys := surveyFields, options := ["one"] },
                        { keys := ["foo"], options := ["a", "b"] }])
      = Except.error PyError.valueError ∧
    (Except.error PyError.valueError : Except PyError (List Item))
      ≠ Except.error PyError.nameError := by
  constructor
  · rfl
  · intro h
    have he : PyError.valueError = PyError.nameError := by
      injection h
    exact PyError.noConfusion he

/-- C7 (amended): the required column set is exactly the six survey
fields; a list whose first offending dict has a key set differing from
that six-field set raises NameError, provided every earlier dict passes
both checks (validation is in list order, headers before options); in
particular a single dict with a missing or extra key raises NameError;
and when every dict carries exactly these keys with more than one
option, the list is returned unchanged. -/
theorem form_required_fields (fileExists : String → Bool) (readSheet : String → Sheet) :
    (∀ x, x ∈ surveyFields ↔ (x = "responseWidth" ∨ x = "layout" ∨ x = "questionText" ∨
        x = "type" ∨ x = "questionWidth" ∨ x = "options")) ∧
    (∀ it, ¬ headersMatch it.keys →
      importItems fileExists readSheet (ItemsArg.list [it])
        = Except.error PyError.nameError) ∧
    (∀ pre it post, (∀ j ∈ pre, headersMatch j.keys ∧ j.options.length > 1) →
      ¬ headersMatch it.keys →
      importItems fileExists readSheet (ItemsArg.list (pre ++ it :: post))
        = Except.error PyError.nameError) ∧
    (∀ its, (∀ it ∈ its, headersMatch it.keys ∧ it.options.length > 1) →
      importItems fileExists readSheet (ItemsArg.list its) = Except.ok its) := by
  have hlistfail : ∀ pre it post, (∀ j ∈ pre, headersMatch j.keys ∧ j.options.length > 1) →
      ¬ headersMatch it.keys →
      importItems fileExists readSheet (ItemsArg.list (pre ++ it :: post))
        = Except.error PyError.nameError := by
    intro pre it post hpre hit
    simp only [importItems]
    rw [checkItems_append_fail pre it post hpre hit]
  refine ⟨?_, ?_, hlistfail, ?_⟩
  · intro x
    simp [surveyFields]
  · intro it hit
    have h := hlistfail [] it [] (by intro j hj; exact absurd hj (List.not_mem_nil j)) hit
    simpa using h
  · intro its h
    simp only [importItems]
    rw [(checkItems_eq_none its).2 h]

theorem form_required_fields_witness :
    (∀ x, x ∈ surveyFields ↔ (x = "responseWidth" ∨ x = "layout" ∨ x = "questionText" ∨
        x = "type" ∨ x = "questionWidth" ∨ x = "options")) ∧
    (∀ it, ¬ headersMatch it.keys →
      importItems (fun _ => false) (fun _ => { columns := [], optionsRaw := [] })
        (ItemsArg.list [it]) = Except.error PyError.nameError) ∧
    (∀ pre it post, (∀ j ∈ pre, headersMatch j.keys ∧ j.options.length > 1) →
      ¬ headersMatch it.keys →
      importItems (fun _ => false) (fun _ => { columns := [], optionsRaw := [] })
        (ItemsArg.list (pre ++ it :: post)) = Except.error PyError.nameError) ∧
    (∀ its, (∀ it ∈ its, headersMatch it.keys ∧ it.options.length > 1) →
      importItems (fun _ => false) (fun _ => { columns := [], optionsRaw := [] })
        (ItemsArg.list its) = Except.ok its) :=
  form_required_fields (fun _ => false) (fun _ => { columns := [], optionsRaw := [] })

/-!  Geometry of Form layout and drawing.  Python floats are modelled
exactly by rationals; every comparison and zero test below mirrors one in
the source, and a division by zero (a Python ZeroDivisionError) or a
min() over an empty list (a Python ValueError) is an error result. -/

/-- Widget state relevant to _doLayout, _getScrollOffet, _inRange and
draw.  The per-index lists run over form items; question and response
stimuli of one item share the same vertical position formula in draw, so
one list of current y positions per element kind is kept. -/
structure FormState where
  items : List Item
  size : Rat × Rat
  pos : Rat × Rat
  itemPadding : Rat
  textHeight : Rat
  scrollSpeed : Nat
  baseYpositions : List Rat
  virtualHeight : Rat
  markerPos : Rat
  questionYs : List Rat
  responseYs : List Rat
deriving DecidableEq, Repr

/-- The item loop of _doLayout (form.py lines 353-368), driven by the
oracle list of per-item (questionHeight, respHeight) pairs coming from
the rendering engine.  Returns the accumulated _baseYpositions, the
initial question positions, and the final virtualHeight. -/
def layoutStep (topEdge pad textH : Rat) :
    List (Rat × Rat) → Rat → List Rat × List Rat × Rat
  | [], vh => ([], [], vh)
  | (qh, rh) :: rest, vh =>
    let qy := topEdge + vh - qh / 2 - pad
    let base := vh - max rh qh - textH
    let out := layoutStep topEdge pad textH rest (vh - (max rh qh + pad))
    (base :: out.1, qy :: out.2.1, out.2.2)

/-- Form.__init__ followed by _doLayout (lines 57-90 and 342-378):
scrollSpeed is len(items) (line 77), virtualHeight starts at 0 (line 87),
the scrollbar marker starts at 1 (line 373).  heights is the rendering
oracle; the source queries one question and one response object per item,
so only the first len(items) entries are consumed. -/
def mkForm (its : List Item) (heights : List (Rat × Rat)) (size pos : Rat × Rat)
    (itemPadding textHeight : Rat) : FormState :=
  let topEdge := pos.2 + size.2 / 2
  let L := layoutStep topEdge itemPadding textHeight (heights.take its.length) 0
  { items := its, size := size, pos := pos, itemPadding := itemPadding,
    textHeight := textHeight, scrollSpeed := its.length,
    baseYpositions := L.1, virtualHeight := L.2.2, markerPos := 1,
    questionYs := L.2.1, responseYs := L.2.1 }

/-- _getScrollOffet (lines 330-340): min over _baseYpositions raises
ValueError on an empty list, modelled as none. -/
def getScrollOffset (s : FormState) : Option Rat :=
  match s.baseYpositions.min? with
  | none => none
  | some maxItemPos =>
    let sizeOffset := (1 - s.markerPos) * (s.size.2 - s.itemPadding)
    some (maxItemPos - s.markerPos * maxItemPos + sizeOffset)

/-- _inRange (lines 380-395): strict comparison of the item y position
against both halves of the form height. -/
def inRange (s : FormState) (y : Rat) : Bool :=
  decide (y < s.size.2 / 2 ∧ y > -s.size.2 / 2)

/-- Result of one draw call: the updated widget state, whether the
scrollbar decoration was drawn, and per index whether the question and
response stimuli were drawn. -/
structure DrawResult where
  state : FormState
  scrollbarShown : Bool
  questionDrawn : List Bool
  responseDrawn : List Bool
deriving DecidableEq, Repr

/-- draw (lines 397-419).  fractionVisible = size[1]/(-virtualHeight)
raises ZeroDivisionError when virtualHeight is 0 (line 400); the mouse
wheel update divides by scrollSpeed and raises when it is 0 (line 405);
_getScrollOffet is then evaluated per item with the updated marker.
Every item position is recomputed and an item is drawn exactly when
_inRange holds of its new position (lines 413-418). -/
def draw (s : FormState) (wheel : Rat) : Option DrawResult :=
  if s.virtualHeight = 0 then none
  else
    let fractionVisible := s.size.2 / (-s.virtualHeight)
    let scrollbarShown := decide (fractionVisible < 1)
    if s.scrollSpeed = 0 then none
    else
      let s1 := { s with markerPos := s.markerPos + wheel / (s.scrollSpeed : Rat) }
      match getScrollOffset s1 with
      | none => none
      | some off =>
        let newYs := s1.baseYpositions.map (fun b => s1.size.2 / 2 + b - off)
        let s2 := { s1 with questionYs := newYs, responseYs := newYs }
        some { state := s2, scrollbarShown := scrollbarShown,
               questionDrawn := newYs.map (fun y => inRange s2 y),
               responseDrawn := newYs.map (fun y => inRange s2 y) }

/-- _inRange only reads the form size, and its two strict comparisons
say exactly that y lies in the open interval around the centre. -/
theorem inRange_eq (s : FormState) (y : Rat) :
    inRange s y = decide (-s.size.2 / 2 < y ∧ y < s.size.2 / 2) := by
  unfold inRange
  exact decide_eq_decide.mpr ⟨fun hy => ⟨hy.2, hy.1⟩, fun hy => ⟨hy.2, hy.1⟩⟩

/-- C8: on every successful draw call the layout offsets are recomputed
from _baseYpositions and the fresh scroll offset, question and response
stimuli of an item share that recomputed position, and an item is drawn
exactly when its new vertical position lies strictly between
-size[1]/2 and size[1]/2; items outside the range are not drawn. -/
theorem form_draw_in_range (s : FormState) (wheel : Rat) (res : DrawResult)
    (h : draw s wheel = some res) :
    ∃ off, getScrollOffset
        { s with markerPos := s.markerPos + wheel / (s.scrollSpeed : Rat) } = some off ∧
      res.state.questionYs = s.baseYpositions.map (fun b => s.size.2 / 2 + b - off) ∧
      res.state.responseYs = res.state.questionYs ∧
      res.responseDrawn = res.questionDrawn ∧
      res.questionDrawn
        = res.state.questionYs.map
            (fun y => decide (-s.size.2 / 2 < y ∧ y < s.size.2 / 2)) ∧
      (∀ i (hd : i < res.questionDrawn.length) (hy : i < res.state.questionYs.length),
        (res.questionDrawn.get ⟨i, hd⟩ = true ↔
          (-s.size.2 / 2 < res.state.questionYs.get ⟨i, hy⟩ ∧
            res.state.questionYs.get ⟨i, hy⟩ < s.size.2 / 2))) := by
  simp only [draw] at h
  by_cases h0 : s.virtualHeight = 0
  · rw [if_pos h0] at h
    exact Option.noConfusion h
  · rw [if_neg h0] at h
    by_cases h1 : s.scrollSpeed = 0
    · rw [if_pos h1] at h
      exact Option.noConfusion h
    · rw [if_neg h1] at h
      cases ho : getScrollOffset
          { s with markerPos := s.markerPos + wheel / (s.scrollSpeed : Rat) } with
      | none =>
        rw [ho] at h
        exact Option.noConfusion h
      | some off =>
        simp only [ho] at h
        have hres : res = _ := (Option.some.inj h).symm
        subst hres
        refine ⟨off, rfl, rfl, rfl, rfl, ?_, ?_⟩
        · simp only [inRange_eq]
        · intro i hd hy
          simp only [List.get_eq_getElem, List.getElem_map, inRange_eq,
            decide_eq_true_eq]

/-- The concrete form used to witness C8: one item, unit size,
baseYposition 0, virtual height -1. -/
def exForm : FormState :=
  { items := [{ keys := surveyFields, options := ["a", "b"] }],
    size := (1, 1), pos := (0, 0), itemPadding := 0, textHeight := 0,
    scrollSpeed := 1, baseYpositions := [0], virtualHeight := -1,
    markerPos := 1, questionYs := [0], responseYs := [0] }

/-- The widget state after drawing exForm with no wheel motion. -/
def exFormAfter : FormState :=
  { items := [{ keys := surveyFields, options := ["a", "b"] }],
    size := (1, 1), pos := (0, 0), itemPadding := 0, textHeight := 0,
    scrollSpeed := 1, baseYpositions := [0], virtualHeight := -1,
    markerPos := 1, questionYs := [1/2], responseYs := [1/2] }

/-- The draw result of exForm with no wheel motion. -/
def exDrawRes : DrawResult :=
  { state := exFormAfter, scrollbarShown := false,
    questionDrawn := [false], responseDrawn := [false] }

theorem exDraw_eq : draw exForm 0 = some exDrawRes := by
  unfold draw exForm exDrawRes exFormAfter getScrollOffset
  norm_num [List.min?, List.foldl, inRange_eq, List.map]

theorem form_draw_in_range_witness :
    ∃ off, getScrollOffset
        { exForm with
          markerPos := exForm.markerPos + 0 / (exForm.scrollSpeed : Rat) } = some off ∧
      exDrawRes.state.questionYs
        = exForm.baseYpositions.map (fun b => exForm.size.2 / 2 + b - off) ∧
      exDrawRes.state.responseYs = exDrawRes.state.questionYs ∧
      exDrawRes.responseDrawn = exDrawRes.questionDrawn ∧
      exDrawRes.questionDrawn
        = exDrawRes.state.questionYs.map
            (fun y => decide (-exForm.size.2 / 2 < y ∧ y < exForm.size.2 / 2)) ∧
      (∀ i (hd : i < exDrawRes.questionDrawn.length)
          (hy : i < exDrawRes.state.questionYs.length),
        (exDrawRes.questionDrawn.get ⟨i, hd⟩ = true ↔
          (-exForm.size.2 / 2 < exDrawRes.state.questionYs.get ⟨i, hy⟩ ∧
            exDrawRes.state.questionYs.get ⟨i, hy⟩ < exForm.size.2 / 2))) :=
  form_draw_in_range exForm 0 exDrawRes exDraw_eq

/-- An empty form draws to an error on every poll: virtualHeight stays 0,
so fractionVisible divides by zero. -/
theorem draw_mkForm_nil (heights : List (Rat × Rat)) (size pos : Rat × Rat)
    (pad textH : Rat) (wheel : Rat) :
    draw (mkForm [] heights size pos pad textH) wheel = none := rfl

/-- C10: a Form built from an empty item list is accepted by importItems
and its layout completes with scrollSpeed = len(items) = 0, virtualHeight
0 and no base positions, but every subsequent draw fails with a division
by zero (fractionVisible = size[1]/(-virtualHeight) at line 400, reached
before the wheel division by scrollSpeed, whose denominator is also 0);
conversely a draw call can only succeed when the item list is
non-empty. -/
theorem form_empty_items_draw_div0 :
    (∀ (fileExists : String → Bool) (readSheet : String → Sheet),
      importItems fileExists readSheet (ItemsArg.list []) = Except.ok ([] : List Item)) ∧
    (∀ (heights : List (Rat × Rat)) (size pos : Rat × Rat) (pad textH : Rat),
      (mkForm [] heights size pos pad textH).virtualHeight = 0 ∧
      (mkForm [] heights size pos pad textH).scrollSpeed = 0 ∧
      (mkForm [] heights size pos pad textH).baseYpositions = []) ∧
    (∀ (heights : List (Rat × Rat)) (size pos : Rat × Rat) (pad textH wheel : Rat),
      draw (mkForm [] heights size pos pad textH) wheel = none) ∧
    (∀ (its : List Item) (heights : List (Rat × Rat)) (size pos : Rat × Rat)
        (pad textH wheel : Rat) (res : DrawResult),
      draw (mkForm its heights size pos pad textH) wheel = some res → its ≠ []) := by
  refine ⟨fun _ _ => rfl, fun _ _ _ _ _ => ⟨rfl, rfl, rfl⟩, ?_, ?_⟩
  · intro heights size pos pad textH wheel
    exact draw_mkForm_nil heights size pos pad textH wheel
  · intro its heights size pos pad textH wheel res h hnil
    rw [hnil, draw_mkForm_nil heights size pos pad textH wheel] at h
    exact Option.noConfusion h

theorem form_empty_items_draw_div0_witness :
    importItems (fun _ => true) (fun _ => { columns := [], optionsRaw := [] })
        (ItemsArg.list []) = Except.ok ([] : List Item) ∧
    (mkForm [] [] ((1 : Rat), 1) (0, 0) 0 0).virtualHeight = 0 ∧
    (mkForm [] [] ((1 : Rat), 1) (0, 0) 0 0).scrollSpeed = 0 ∧
    draw (mkForm [] [] ((1 : Rat), 1) (0, 0) 0 0) 0 = none :=
  ⟨form_empty_items_draw_div0.1 (fun _ => true) (fun _ => { columns := [], optionsRaw := [] }),
    (form_empty_items_draw_div0.2.1 [] ((1 : Rat), 1) (0, 0) 0 0).1,
    (form_empty_items_draw_div0.2.1 [] ((1 : Rat), 1) (0, 0) 0 0).2.1,
    form_empty_items_draw_div0.2.2.1 [] ((1 : Rat), 1) (0, 0) 0 0 0⟩

end FormModel
